import Mathlib

/-!
Verification of the figma-markdown-generator backend
(src/backend/generate-docs/index.py), shallow-embedded in Lean.

Modelling conventions:
* Python dict-based JSON values are embedded as structures/inductives whose
  optional fields are `Option`s; `d.get(k, default)` becomes `Option.getD`.
* Strings are manipulated through their character lists (`String.data`),
  and Python `str.lower` is embedded as `Char.toLower` mapped over the list
  (they agree on the ASCII material all claims are about).
* Network calls (urllib, the DeepSeek call) cannot be embedded; each
  function that performs one takes the call's outcome as an explicit
  argument of a sum type whose constructors correspond to the distinct
  behaviours of the Python runtime (success with a parsed body, an
  `urllib.error.HTTPError`, any other raised exception).
-/

namespace FigmaDocs

/-- A character of the regex class `[a-zA-Z0-9_]` used by `sanitize_name`. -/
def goodChar (c : Char) : Bool :=
  c.isAlpha || c.isDigit || c == '_'

/-- `re.sub(r'[^a-zA-Z0-9_]', '_', name)`: replace each character outside
the class by an underscore. -/
def replaceBad (l : List Char) : List Char :=
  l.map (fun c => if goodChar c then c else '_')

/-- `re.sub(r'_+', '_', s)`: collapse each maximal run of underscores to a
single underscore. -/
def collapseUnd : List Char → List Char
  | [] => []
  | [c] => [c]
  | c :: d :: rest =>
    if c == '_' && d == '_' then collapseUnd (d :: rest)
    else c :: collapseUnd (d :: rest)

/-- `str.strip('_')`: drop leading and trailing underscores. -/
def stripUnd (l : List Char) : List Char :=
  ((l.dropWhile (fun c => c == '_')).reverse.dropWhile (fun c => c == '_')).reverse

/-- `str.lower()`; at its point of use in `sanitize_name` every character is
ASCII `[A-Za-z0-9_]`, where `Char.toLower` agrees with Python `str.lower`. -/
def lowerList (l : List Char) : List Char :=
  l.map Char.toLower

/-- The character-list pipeline of `sanitize_name`. -/
def sanitizeList (l : List Char) : List Char :=
  lowerList (stripUnd (collapseUnd (replaceBad l)))

/-- `sanitize_name` from index.py; `sanitized or 'element'` (the empty
string is falsy in Python). -/
def sanitize_name (name : String) : String :=
  let s := sanitizeList name.data
  if s.isEmpty then "element" else String.mk s

/-- Python's substring containment `pat in s`, on character lists. -/
def isSubstr (pat : List Char) : List Char → Bool
  | [] => pat.isEmpty
  | c :: rest => pat.isPrefixOf (c :: rest) || isSubstr pat rest

/-- A Figma design node as delivered by the API: a JSON object with
optional `type`, `name` and `cornerRadius` fields and an optional ordered
`children` array (an absent array behaves exactly like an empty one, as
both sites read it with `node.get('children', [])`). -/
inductive DesignNode : Type where
  | mk (type? : Option String) (name? : Option String)
       (cornerRadius? : Option Int) (children : List DesignNode) : DesignNode
deriving Repr

def DesignNode.type? : DesignNode → Option String
  | .mk t _ _ _ => t

def DesignNode.name? : DesignNode → Option String
  | .mk _ n _ _ => n

def DesignNode.cornerRadius? : DesignNode → Option Int
  | .mk _ _ r _ => r

def DesignNode.children : DesignNode → List DesignNode
  | .mk _ _ _ ch => ch

/-- One element dict appended by `extract_ui_elements`, later enriched in
place by `enhance_with_deepseek` (`description`/`logic` are absent until
then, hence `Option`). -/
structure UiElement where
  id : Nat
  type : String
  name : String
  raw_name : String
  figma_type : String
  description : Option String := none
  logic : Option String := none
deriving Repr, DecidableEq

/-- `is_button_like` from index.py: the lowercased name contains "button"
or "btn", or `node.get('cornerRadius', 0) > 0`. -/
def is_button_like (node : DesignNode) : Bool :=
  isSubstr "button".data (lowerList (node.name?.getD "").data) ||
  isSubstr "btn".data (lowerList (node.name?.getD "").data) ||
  decide (0 < node.cornerRadius?.getD 0)

mutual

/-- `extract_ui_elements` from index.py, with the two mutated arguments
(the `elements` list and the one-cell `counter`) passed and returned
explicitly. -/
def extractNode (node : DesignNode) (elements : List UiElement) (counter : Nat) :
    List UiElement × Nat :=
  match node with
  | .mk t? n? cr? ch =>
    if t?.getD "" ∈ ["FRAME", "GROUP", "COMPONENT", "INSTANCE"] then
      extractChildren ch elements counter
    else if t?.getD "" = "TEXT" then
      (elements ++ [{ id := counter, type := "text", name := sanitize_name (n?.getD "Unnamed"),
                      raw_name := n?.getD "Unnamed", figma_type := t?.getD "" }], counter + 1)
    else if t?.getD "" = "RECTANGLE" then
      if is_button_like (.mk t? n? cr? ch) then
        (elements ++ [{ id := counter, type := "button", name := sanitize_name (n?.getD "Unnamed"),
                        raw_name := n?.getD "Unnamed", figma_type := t?.getD "" }], counter + 1)
      else
        (elements ++ [{ id := counter, type := "card", name := sanitize_name (n?.getD "Unnamed"),
                        raw_name := n?.getD "Unnamed", figma_type := t?.getD "" }], counter + 1)
    else if t?.getD "" ∈ ["VECTOR", "BOOLEAN_OPERATION", "STAR", "LINE", "ELLIPSE"] then
      (elements ++ [{ id := counter, type := "icon", name := sanitize_name (n?.getD "Unnamed"),
                      raw_name := n?.getD "Unnamed", figma_type := t?.getD "" }], counter + 1)
    else
      extractChildren ch elements counter

/-- The `for child in children: extract_ui_elements(child, elements, counter)`
loops of `extract_ui_elements`. -/
def extractChildren (nodes : List DesignNode) (elements : List UiElement) (counter : Nat) :
    List UiElement × Nat :=
  match nodes with
  | [] => (elements, counter)
  | c :: rest =>
    let s := extractNode c elements counter
    extractChildren rest s.1 s.2

end

/-- The top-level call `extract_ui_elements(figma_data)`: fresh list, counter 1. -/
def extract_ui_elements (node : DesignNode) : List UiElement :=
  (extractNode node [] 1).1

/-- The characters matched by the `([a-zA-Z0-9]+)` capture group. -/
def alnumChar (c : Char) : Bool :=
  c.isAlpha || c.isDigit

/-- The characters matched by the `([0-9%-]+)` capture group. -/
def nodeIdChar (c : Char) : Bool :=
  c.isDigit || c == '%' || c == '-'

def fileLit : List Char := "figma.com/file/".data

def designLit : List Char := "figma.com/design/".data

def nodeIdLit : List Char := "node-id=".data

/-- `re.search` for a pattern made of a literal followed by one greedy
character-class capture (`node-id=([0-9%-]+)`): scan left to right and, at
the first position where the literal matches and at least one class
character follows it, return the maximal run of class characters. -/
def searchCapture (lit : List Char) (cls : Char → Bool) : List Char → Option (List Char)
  | [] => none
  | c :: rest =>
    let cap := ((c :: rest).drop lit.length).takeWhile cls
    if lit.isPrefixOf (c :: rest) && !cap.isEmpty then some cap
    else searchCapture lit cls rest

/-- `re.search(r'figma\.com/(?:file|design)/([a-zA-Z0-9]+)', url)`: at each
position the two alternatives are tried in order (they can never both
match, as the literals differ at a fixed offset). -/
def searchFileKey : List Char → Option (List Char)
  | [] => none
  | c :: rest =>
    let cap1 := ((c :: rest).drop fileLit.length).takeWhile alnumChar
    let cap2 := ((c :: rest).drop designLit.length).takeWhile alnumChar
    if fileLit.isPrefixOf (c :: rest) && !cap1.isEmpty then some cap1
    else if designLit.isPrefixOf (c :: rest) && !cap2.isEmpty then some cap2
    else searchFileKey rest

/-- `parse_figma_url` from index.py; `.replace('-', ':')` on a one-character
pattern is the per-character rewrite. -/
def parse_figma_url (url : String) : Option String × Option String :=
  let file_key := (searchFileKey url.data).map String.mk
  let node_id := (searchCapture nodeIdLit nodeIdChar url.data).map
    (fun l => String.mk (l.map (fun c => if c == '-' then ':' else c)))
  (file_key, node_id)

/-- Outcome of the single authenticated GET in `fetch_figma_node`: the
request either raises `urllib.error.HTTPError` (the only class the
function catches), raises anything else (a network `urllib.error.URLError`,
a JSON decode failure of the response body, a non-object body, ...), or
yields a parsed JSON body whose `nodes` object is an association list from
node-id keys to optional `document` sub-objects (`none` models a node
entry whose `document` key is absent or maps to the falsy `{}`). -/
inductive ApiOutcome where
  | httpError
  | otherFailure
  | ok (nodes : List (String × Option DesignNode))

/-- What `fetch_figma_node` does, seen from its caller: return a value, or
let an exception escape the function. -/
inductive FetchResult where
  | raised
  | returned (document : Option DesignNode)

/-- A Python `dict` built from a JSON object keeps the last occurrence of a
duplicated key; `.get` returns the value at the key, if any. -/
def dictGet (entries : List (String × Option DesignNode)) (key : String) :
    Option (Option DesignNode) :=
  (entries.reverse.find? (fun p => p.1 == key)).map Prod.snd

/-- `fetch_figma_node` from index.py. `file_key` and `token` only feed the
request URL and header, which the `ApiOutcome` argument abstracts;
`node_id` is the verbatim lookup key into the response's `nodes` object
(`nodes.get(node_id, {}).get('document', {})`). Only `HTTPError` is
caught. -/
def fetch_figma_node (file_key node_id token : String) (outcome : ApiOutcome) : FetchResult :=
  match outcome with
  | .ok nodes => .returned (Option.join (dictGet nodes node_id))
  | .httpError => .returned none
  | .otherFailure => .raised

/-- One `{id, description, logic}` object of the model's JSON reply. An
item without an `id` key, or a reply that is not an array of objects,
raises inside the `try` in Python and is therefore part of the exception
outcome instead. -/
structure AiItem where
  id : Int
  description : Option String := none
  logic : Option String := none
deriving Repr, DecidableEq

/-- `ai_map = {item['id']: item for item in ai_data}` followed by
`ai_map.get(element['id'], {})`: last duplicate id wins. -/
def aiMapGet (items : List AiItem) (i : Int) : Option AiItem :=
  items.reverse.find? (fun it => it.id == i)

/-- `enhance_with_deepseek` from index.py. Everything from the API call to
the dict comprehension sits in one `try`: the argument `ai` is `.ok items`
when `call_deepseek_api` returned and `json.loads` plus the id-keyed dict
comprehension succeeded on its reply, and `.error ()` when any of that
raised. -/
def enhance_with_deepseek (elements : List UiElement) (frame_name : String)
    (ai : Except Unit (List AiItem)) : List UiElement :=
  if elements.isEmpty then elements
  else
    match ai with
    | .ok items =>
      elements.map (fun element =>
        let ai_info := aiMapGet items (element.id : Int)
        { element with
          description := some ((ai_info.bind AiItem.description).getD ("Элемент " ++ element.type)),
          logic := some ((ai_info.bind AiItem.logic).getD "Стандартное взаимодействие") })
    | .error _ =>
      elements.map (fun element =>
        { element with
          description := some ("Элемент " ++ element.type ++ ": " ++ element.raw_name),
          logic := some "Базовое взаимодействие с элементом" })

/-- `generate_markdown` from index.py: the `for` loop is a left fold over
the accumulated string; `element.get('description', '')` renders a missing
cell as the empty string; `str` of the integer id is decimal `Nat.repr`. -/
def generate_markdown (elements : List UiElement) (frame_name : String) : String :=
  let md := "# " ++ frame_name ++ " Documentation\n\n"
  let md := md ++ "| № | Тип элемента | Название | Описание | Логика работы |\n"
  let md := md ++ "|---|--------------|----------|-----------|---------------|\n"
  elements.foldl (fun md element =>
    md ++ ("| " ++ toString element.id ++ " | " ++ element.type ++ " | " ++ element.name ++ " | ")
       ++ ((element.description.getD "") ++ " | " ++ (element.logic.getD "") ++ " |\n")) md

/-- The result of `json.loads(event.get('body', '{}'))` followed by
`body_data.get('figmaUrl', '').strip()`, classified by the Python
behaviour it triggers. A missing `body` key defaults to `'{}'`, i.e.
`noFigmaUrl`. -/
inductive BodyParse where
  | raisesOnLoad      -- the body string is not valid JSON: json.loads raises
  | loadedNonDict     -- valid JSON but not an object: .get raises
  | noFigmaUrl        -- an object without a (string) figmaUrl key, or no body
  | figmaUrlNonString -- figmaUrl present but not a string: .strip() raises
  | figmaUrl (s : String)

/-- `str.strip()` of the URL: trim leading and trailing whitespace. -/
def pyStrip (s : String) : String :=
  String.mk (((s.data.dropWhile Char.isWhitespace).reverse.dropWhile Char.isWhitespace).reverse)

/-- A response body as serialized with `json.dumps`. `internalError` is the
catch-all `{'error': f'Internal error: {str(e)}'}` whose message text
depends on the exception that was raised. -/
inductive RespBody where
  | emptyBody
  | errorMsg (msg : String)
  | internalError
  | success (markdown frameName : String) (elementsCount : Nat)

structure HttpResponse where
  statusCode : Nat
  headers : List (String × String)
  body : RespBody

def corsOptionsHeaders : List (String × String) :=
  [("Access-Control-Allow-Origin", "*"), ("Access-Control-Allow-Methods", "POST, OPTIONS"),
   ("Access-Control-Allow-Headers", "Content-Type"), ("Access-Control-Max-Age", "86400")]

def corsJsonHeaders : List (String × String) :=
  [("Access-Control-Allow-Origin", "*"), ("Content-Type", "application/json")]

/-- Python truthiness of an optional string (`if not x`): `None` and the
empty string are falsy. -/
def falsyStr : Option String → Bool
  | none => true
  | some s => s == ""

/-- `handler` from index.py. The wire-level inputs the model cannot produce
itself arrive as data: `method` is `event.get('httpMethod', 'GET')`, `body`
the parse classification of the request body, the two `Option String`s the
environment variables, and `api`/`ai` the outcomes of the two outbound
calls. -/
def handler (method : String) (body : BodyParse) (figma_token deepseek_key : Option String)
    (api : ApiOutcome) (ai : Except Unit (List AiItem)) : HttpResponse :=
  if method = "OPTIONS" then ⟨200, corsOptionsHeaders, .emptyBody⟩
  else if method ≠ "POST" then ⟨405, corsJsonHeaders, .errorMsg "Method not allowed"⟩
  else
    match body with
    | .raisesOnLoad => ⟨500, corsJsonHeaders, .internalError⟩
    | .loadedNonDict => ⟨500, corsJsonHeaders, .internalError⟩
    | .figmaUrlNonString => ⟨500, corsJsonHeaders, .internalError⟩
    | .noFigmaUrl => ⟨400, corsJsonHeaders, .errorMsg "Figma URL is required"⟩
    | .figmaUrl raw =>
      let figma_url := pyStrip raw
      if figma_url = "" then ⟨400, corsJsonHeaders, .errorMsg "Figma URL is required"⟩
      else
        let fk := parse_figma_url figma_url
        if falsyStr fk.1 || falsyStr fk.2 then
          ⟨400, corsJsonHeaders,
           .errorMsg "Invalid Figma URL format. Expected: figma.com/file/FILE_KEY/...?node-id=NODE_ID"⟩
        else if falsyStr figma_token then
          ⟨500, corsJsonHeaders, .errorMsg "FIGMA_ACCESS_TOKEN not configured"⟩
        else if falsyStr deepseek_key then
          ⟨500, corsJsonHeaders, .errorMsg "DEEPSEEK_API_KEY not configured"⟩
        else
          match fetch_figma_node (fk.1.getD "") (fk.2.getD "") (figma_token.getD "") api with
          | .raised => ⟨500, corsJsonHeaders, .internalError⟩
          | .returned none =>
            ⟨404, corsJsonHeaders, .errorMsg "Failed to fetch Figma data. Check your token and URL"⟩
          | .returned (some figma_data) =>
            let elements := extract_ui_elements figma_data
            let frame_name := figma_data.name?.getD "UI Screen"
            let enhanced := enhance_with_deepseek elements frame_name ai
            let markdown := generate_markdown enhanced frame_name
            ⟨200, corsJsonHeaders, .success markdown frame_name enhanced.length⟩

/-- Spec-side formulation of "collapse consecutive underscores into one",
written as a right fold instead of the paired-character recursion. -/
def collapseSpec (l : List Char) : List Char :=
  l.foldr (fun c acc => if c == '_' && acc.head? == some '_' then acc else c :: acc) []

/-- The spec's description of name sanitization: replace characters outside
`[A-Za-z0-9_]` by `_`, collapse runs of `_`, trim `_` at both ends,
lowercase, and fall back to "element" when empty. -/
def sanitizeSpec (name : String) : String :=
  let t := lowerList (stripUnd (collapseSpec (replaceBad name.data)))
  if t.isEmpty then "element" else String.mk t

/-- No two adjacent underscores (the state of a string after `_+` → `_`). -/
def NoAdjUnd (l : List Char) : Prop :=
  List.Chain' (fun a b => ¬(a = '_' ∧ b = '_')) l

/-- The heading plus fixed table header of the Markdown document. -/
def markdownHeader (frame_name : String) : String :=
  "# " ++ frame_name ++ " Documentation\n\n" ++
  "| № | Тип элемента | Название | Описание | Логика работы |\n" ++
  "|---|--------------|----------|-----------|---------------|\n"

/-- One data row of the table; a missing description or logic is an empty
cell. -/
def markdownRow (element : UiElement) : String :=
  "| " ++ toString element.id ++ " | " ++ element.type ++ " | " ++ element.name ++ " | " ++
  (element.description.getD "") ++ " | " ++ (element.logic.getD "") ++ " |\n"

/-- All data rows, one per element, in list order. -/
def markdownRows (elements : List UiElement) : String :=
  elements.foldr (fun element acc => markdownRow element ++ acc) ""


theorem extract_go_spec :
    ∀ (node : DesignNode) (els : List UiElement) (ctr : Nat),
      ∃ d, extractNode node els ctr = (els ++ d, ctr + d.length) ∧
        d.map UiElement.id = List.range' ctr d.length := by
  refine extractNode.induct
    (fun node els ctr => ∃ d, extractNode node els ctr = (els ++ d, ctr + d.length) ∧
        d.map UiElement.id = List.range' ctr d.length)
    (fun nodes els ctr => ∃ d, extractChildren nodes els ctr = (els ++ d, ctr + d.length) ∧
        d.map UiElement.id = List.range' ctr d.length)
    ?_ ?_ ?_ ?_ ?_ ?_ ?_ ?_
  · intro els ctr a a1 a2 a3 h1 ih
    obtain ⟨d, hd, hid⟩ := ih
    exact ⟨d, by simp [extractNode, h1, hd], hid⟩
  · intro els ctr a a1 a2 a3 h1 h2
    refine ⟨[{ id := ctr, type := "text", name := sanitize_name (a1.getD "Unnamed"),
               raw_name := a1.getD "Unnamed", figma_type := a.getD "" }], ?_, rfl⟩
    simp [extractNode, h1, h2]
  · intro els ctr a a1 a2 a3 h1 h2 h3 hb
    refine ⟨[{ id := ctr, type := "button", name := sanitize_name (a1.getD "Unnamed"),
               raw_name := a1.getD "Unnamed", figma_type := a.getD "" }], ?_, rfl⟩
    simp [extractNode, h1, h2, h3, hb]
  · intro els ctr a a1 a2 a3 h1 h2 h3 hb
    refine ⟨[{ id := ctr, type := "card", name := sanitize_name (a1.getD "Unnamed"),
               raw_name := a1.getD "Unnamed", figma_type := a.getD "" }], ?_, rfl⟩
    simp [extractNode, h1, h2, h3, hb]
  · intro els ctr a a1 a2 a3 h1 h2 h3 h4
    refine ⟨[{ id := ctr, type := "icon", name := sanitize_name (a1.getD "Unnamed"),
               raw_name := a1.getD "Unnamed", figma_type := a.getD "" }], ?_, rfl⟩
    simp [extractNode, h1, h2, h3, h4]
  · intro els ctr a a1 a2 a3 h1 h2 h3 h4 ih
    obtain ⟨d, hd, hid⟩ := ih
    exact ⟨d, by simp [extractNode, h1, h2, h3, h4, hd], hid⟩
  · intro els ctr
    exact ⟨[], by simp [extractChildren], rfl⟩
  · intro els ctr c rest s ih1 ih2
    obtain ⟨d1, hd1, hid1⟩ := ih1
    obtain ⟨d2, hd2, hid2⟩ := ih2
    have hs : s = (els ++ d1, ctr + d1.length) := hd1
    rw [hs] at hd2 hid2
    refine ⟨d1 ++ d2, ?_, ?_⟩
    · simp only [extractChildren]
      show extractChildren rest s.1 s.2 = _
      rw [hs, hd2]
      simp [Nat.add_assoc]
    · rw [List.map_append, hid1, hid2]
      simp only [List.length_append]
      rw [Nat.add_comm d1.length d2.length]
      simp [List.range'_append, Nat.add_comm]

/-- C1: the ids of the extracted element list are the contiguous sequence
1..N matching list position, the list being produced by the depth-first
left-to-right traversal `extractNode`. -/
theorem extractor_ids_contiguous (node : DesignNode) :
    (extract_ui_elements node).map UiElement.id =
      List.range' 1 (extract_ui_elements node).length := by
  obtain ⟨d, hd, hid⟩ := extract_go_spec node [] 1
  have h1 : extract_ui_elements node = d := by simp [extract_ui_elements, hd]
  rw [h1, hid]

/-- C2: a RECTANGLE node yields exactly one element, "button" iff the
lowercased name contains "button" or "btn" or the corner radius is
positive, else "card"; plus the three concrete examples. -/
theorem rectangle_classification :
    (∀ (n? : Option String) (cr? : Option Int) (ch : List DesignNode)
       (els : List UiElement) (ctr : Nat),
      extractNode (.mk (some "RECTANGLE") n? cr? ch) els ctr =
        (els ++ [{ id := ctr,
                   type := if isSubstr "button".data (lowerList (n?.getD "").data)
                              || isSubstr "btn".data (lowerList (n?.getD "").data)
                              || decide (0 < cr?.getD 0) then "button" else "card",
                   name := sanitize_name (n?.getD "Unnamed"),
                   raw_name := n?.getD "Unnamed",
                   figma_type := "RECTANGLE" }], ctr + 1))
    ∧ (extract_ui_elements (.mk (some "RECTANGLE") (some "Submit Button") (some 0) [])).map
        UiElement.type = ["button"]
    ∧ (extract_ui_elements (.mk (some "RECTANGLE") (some "Photo") (some 0) [])).map
        UiElement.type = ["card"]
    ∧ (extract_ui_elements (.mk (some "RECTANGLE") (some "Photo") (some 8) [])).map
        UiElement.type = ["button"] := by
  refine ⟨?_, by decide, by decide, by decide⟩
  intro n? cr? ch els ctr
  by_cases hb : (isSubstr "button".data (lowerList (n?.getD "").data) ||
      isSubstr "btn".data (lowerList (n?.getD "").data) || decide (0 < cr?.getD 0)) = true
  · simp [extractNode, is_button_like, DesignNode.name?, DesignNode.cornerRadius?, hb]
  · simp [extractNode, is_button_like, DesignNode.name?, DesignNode.cornerRadius?, hb]

theorem char_eq_iff_toNat {a b : Char} : a = b ↔ a.toNat = b.toNat := by
  constructor
  · intro h; rw [h]
  · intro h; exact Char.ext (UInt32.ext h)

theorem goodChar_iff (c : Char) : goodChar c = true ↔
    (65 ≤ c.toNat ∧ c.toNat ≤ 90) ∨ (97 ≤ c.toNat ∧ c.toNat ≤ 122) ∨
    (48 ≤ c.toNat ∧ c.toNat ≤ 57) ∨ c.toNat = 95 := by
  have h95 : (c == '_') = true ↔ c.toNat = 95 := by
    rw [beq_iff_eq]
    exact char_eq_iff_toNat
  simp only [goodChar, Char.isAlpha, Char.isUpper, Char.isLower, Char.isDigit,
    Bool.or_eq_true, Bool.and_eq_true, decide_eq_true_eq, h95]
  constructor
  · intro h
    rcases h with (⟨⟨h1, h2⟩ | ⟨h1, h2⟩⟩ | ⟨h1, h2⟩) | h
    · exact Or.inl ⟨h1, h2⟩
    · exact Or.inr (Or.inl ⟨h1, h2⟩)
    · exact Or.inr (Or.inr (Or.inl ⟨h1, h2⟩))
    · exact Or.inr (Or.inr (Or.inr h))
  · intro h
    rcases h with ⟨h1, h2⟩ | ⟨h1, h2⟩ | ⟨h1, h2⟩ | h
    · exact Or.inl (Or.inl (Or.inl ⟨h1, h2⟩))
    · exact Or.inl (Or.inl (Or.inr ⟨h1, h2⟩))
    · exact Or.inl (Or.inr ⟨h1, h2⟩)
    · exact Or.inr h

theorem toLower_toNat (c : Char) :
    (Char.toLower c).toNat = if 65 ≤ c.toNat ∧ c.toNat ≤ 90 then c.toNat + 32 else c.toNat := by
  unfold Char.toLower
  by_cases h : 65 ≤ c.toNat ∧ c.toNat ≤ 90
  · rw [if_pos, if_pos h]
    · unfold Char.ofNat
      rw [dif_pos]
      · rfl
      · constructor; omega
    · exact ⟨h.1, h.2⟩
  · rw [if_neg, if_neg h]
    intro hc
    exact h ⟨hc.1, hc.2⟩

theorem goodChar_toLower {c : Char} (h : goodChar c = true) : goodChar (Char.toLower c) = true := by
  rw [goodChar_iff] at h ⊢
  rw [toLower_toNat]
  by_cases hr : 65 ≤ c.toNat ∧ c.toNat ≤ 90
  · rw [if_pos hr]; omega
  · rw [if_neg hr]; omega

theorem toLower_toLower (c : Char) : Char.toLower (Char.toLower c) = Char.toLower c := by
  rw [char_eq_iff_toNat, toLower_toNat, toLower_toNat c]
  by_cases hr : 65 ≤ c.toNat ∧ c.toNat ≤ 90
  · rw [if_pos hr, if_neg]; omega
  · rw [if_neg hr, if_neg hr]

theorem toLower_eq_und {c : Char} : Char.toLower c = '_' ↔ c = '_' := by
  rw [char_eq_iff_toNat, char_eq_iff_toNat (b := '_'), toLower_toNat]
  show _ = 95 ↔ _ = 95
  by_cases hr : 65 ≤ c.toNat ∧ c.toNat ≤ 90
  · rw [if_pos hr]; omega
  · rw [if_neg hr]

theorem mem_replaceBad {c : Char} {l : List Char} (h : c ∈ replaceBad l) : goodChar c = true := by
  rw [replaceBad, List.mem_map] at h
  obtain ⟨x, _, hx⟩ := h
  by_cases hg : goodChar x = true
  · rw [if_pos hg] at hx; rw [← hx]; exact hg
  · rw [if_neg hg] at hx; rw [← hx]; decide

theorem replaceBad_eq_self {l : List Char} (h : ∀ c ∈ l, goodChar c = true) :
    replaceBad l = l := by
  have h2 : l.map (fun c => if goodChar c then c else '_') = l.map id :=
    List.map_congr_left (fun a ha => by rw [if_pos (h a ha)]; rfl)
  rw [replaceBad, h2, List.map_id]

theorem collapseUnd_sublist : ∀ l : List Char, (collapseUnd l).Sublist l
  | [] => by rw [collapseUnd]
  | [c] => by rw [collapseUnd]
  | c :: d :: rest => by
    rw [collapseUnd]
    by_cases h : (c == '_' && d == '_') = true
    · rw [if_pos h]
      exact (collapseUnd_sublist (d :: rest)).cons c
    · rw [if_neg h]
      exact (collapseUnd_sublist (d :: rest)).cons₂ c

theorem collapseUnd_head? : ∀ (c : Char) (l : List Char), (collapseUnd (c :: l)).head? = some c
  | c, [] => by rw [collapseUnd]; rfl
  | c, d :: rest => by
    rw [collapseUnd]
    by_cases h : (c == '_' && d == '_') = true
    · rw [if_pos h, collapseUnd_head? d rest]
      simp only [Bool.and_eq_true, beq_iff_eq] at h
      rw [h.1, h.2]
    · rw [if_neg h]; rfl

theorem collapseUnd_chain : ∀ l : List Char, NoAdjUnd (collapseUnd l)
  | [] => by rw [collapseUnd]; exact List.chain'_nil
  | [c] => by rw [collapseUnd]; exact List.chain'_singleton c
  | c :: d :: rest => by
    rw [NoAdjUnd, collapseUnd]
    by_cases h : (c == '_' && d == '_') = true
    · rw [if_pos h]; exact collapseUnd_chain (d :: rest)
    · rw [if_neg h, List.chain'_cons']
      refine ⟨?_, collapseUnd_chain (d :: rest)⟩
      intro y hy
      rw [collapseUnd_head? d rest, Option.mem_some_iff] at hy
      subst hy
      intro hc
      apply h
      simp only [Bool.and_eq_true, beq_iff_eq]
      exact ⟨hc.1, hc.2⟩

theorem collapseUnd_eq_self : ∀ {l : List Char}, NoAdjUnd l → collapseUnd l = l
  | [], _ => by rw [collapseUnd]
  | [c], _ => by rw [collapseUnd]
  | c :: d :: rest, h => by
    rw [NoAdjUnd, List.chain'_cons] at h
    rw [collapseUnd, if_neg, collapseUnd_eq_self h.2]
    intro hc
    simp only [Bool.and_eq_true, beq_iff_eq] at hc
    exact h.1 hc

theorem dropWhile_head_false (p : Char → Bool) : ∀ (l : List Char) (c : Char),
    (l.dropWhile p).head? = some c → p c = false
  | [], c, h => by simp at h
  | x :: rest, c, h => by
    rw [List.dropWhile_cons] at h
    by_cases hp : p x = true
    · rw [if_pos hp] at h
      exact dropWhile_head_false p rest c h
    · rw [if_neg hp] at h
      simp only [List.head?_cons, Option.some.injEq] at h
      rw [← h]
      exact Bool.not_eq_true _ ▸ hp

theorem dropWhile_eq_self_of_head (p : Char → Bool) :
    ∀ (l : List Char), (∀ c, l.head? = some c → p c = false) → l.dropWhile p = l
  | [], _ => rfl
  | x :: rest, h => by
    rw [List.dropWhile_cons, if_neg]
    rw [h x rfl]
    simp

theorem mem_stripUnd {x : Char} {l : List Char} (h : x ∈ stripUnd l) : x ∈ l := by
  rw [stripUnd, List.mem_reverse] at h
  have h2 := List.Sublist.mem h (List.dropWhile_sublist _)
  rw [List.mem_reverse] at h2
  exact List.Sublist.mem h2 (List.dropWhile_sublist _)

theorem stripUnd_head_ne {l : List Char} {c : Char}
    (h : (stripUnd l).head? = some c) : (c == '_') = false := by
  rw [stripUnd, List.head?_reverse] at h
  obtain ⟨u, hu⟩ := List.dropWhile_suffix (l := (l.dropWhile (fun c => c == '_')).reverse)
    (p := fun c => c == '_')
  have hw : ((l.dropWhile (fun c => c == '_')).reverse).getLast? = some c := by
    rw [← hu, List.getLast?_append, h]
    rfl
  rw [List.getLast?_reverse] at hw
  exact dropWhile_head_false (fun c => c == '_') l c hw

theorem stripUnd_getLast_ne {l : List Char} {c : Char}
    (h : (stripUnd l).getLast? = some c) : (c == '_') = false := by
  rw [stripUnd, List.getLast?_reverse] at h
  exact dropWhile_head_false (fun c => c == '_')
    ((l.dropWhile (fun c => c == '_')).reverse) c h

theorem stripUnd_eq_self {l : List Char}
    (h1 : ∀ c, l.head? = some c → (c == '_') = false)
    (h2 : ∀ c, l.getLast? = some c → (c == '_') = false) : stripUnd l = l := by
  rw [stripUnd, dropWhile_eq_self_of_head _ l h1,
    dropWhile_eq_self_of_head _ l.reverse (fun c hc => h2 c (by rwa [List.head?_reverse] at hc)),
    List.reverse_reverse]

theorem chain_und_reverse {m : List Char}
    (hm : List.Chain' (fun a b : Char => ¬(a = '_' ∧ b = '_')) m) :
    List.Chain' (fun a b : Char => ¬(a = '_' ∧ b = '_')) m.reverse := by
  rw [List.chain'_reverse]
  exact hm.imp (fun a b hab => fun hx => hab ⟨hx.2, hx.1⟩)

theorem stripUnd_chain {l : List Char} (h : NoAdjUnd l) : NoAdjUnd (stripUnd l) := by
  rw [NoAdjUnd] at h ⊢
  rw [stripUnd]
  exact chain_und_reverse
    ((chain_und_reverse (h.suffix (List.dropWhile_suffix _))).suffix (List.dropWhile_suffix _))

theorem lowerList_chain {l : List Char} (h : NoAdjUnd l) : NoAdjUnd (lowerList l) := by
  rw [NoAdjUnd] at h ⊢
  rw [lowerList, List.chain'_map]
  exact h.imp (fun a b hab => fun hx => hab ⟨toLower_eq_und.mp hx.1, toLower_eq_und.mp hx.2⟩)

theorem lowerList_idem (l : List Char) : lowerList (lowerList l) = lowerList l := by
  rw [lowerList, lowerList, List.map_map]
  exact List.map_congr_left (fun a _ => toLower_toLower a)

theorem sanitizeList_idem (l : List Char) : sanitizeList (sanitizeList l) = sanitizeList l := by
  have hgood : ∀ c ∈ sanitizeList l, goodChar c = true := by
    intro c hc
    rw [sanitizeList, lowerList, List.mem_map] at hc
    obtain ⟨x, hx, hxc⟩ := hc
    have hx2 : x ∈ collapseUnd (replaceBad l) := mem_stripUnd hx
    have hx3 : x ∈ replaceBad l := List.Sublist.mem hx2 (collapseUnd_sublist _)
    rw [← hxc]
    exact goodChar_toLower (mem_replaceBad hx3)
  have hchain : NoAdjUnd (sanitizeList l) :=
    lowerList_chain (stripUnd_chain (collapseUnd_chain _))
  have hhead : ∀ c, (sanitizeList l).head? = some c → (c == '_') = false := by
    intro c hc
    rw [sanitizeList, lowerList, List.head?_map] at hc
    cases hw : (stripUnd (collapseUnd (replaceBad l))).head? with
    | none => rw [hw] at hc; simp at hc
    | some x =>
      rw [hw] at hc
      simp only [Option.map_some', Option.some.injEq] at hc
      have hx := stripUnd_head_ne hw
      rw [beq_eq_false_iff_ne] at hx ⊢
      rw [← hc]
      intro hcontra
      exact hx (toLower_eq_und.mp hcontra)
  have hlast : ∀ c, (sanitizeList l).getLast? = some c → (c == '_') = false := by
    intro c hc
    rw [sanitizeList, lowerList, List.getLast?_map] at hc
    cases hw : (stripUnd (collapseUnd (replaceBad l))).getLast? with
    | none => rw [hw] at hc; simp at hc
    | some x =>
      rw [hw] at hc
      simp only [Option.map_some', Option.some.injEq] at hc
      have hx := stripUnd_getLast_ne hw
      rw [beq_eq_false_iff_ne] at hx ⊢
      rw [← hc]
      intro hcontra
      exact hx (toLower_eq_und.mp hcontra)
  calc sanitizeList (sanitizeList l)
      = lowerList (stripUnd (collapseUnd (replaceBad (sanitizeList l)))) := rfl
    _ = lowerList (stripUnd (collapseUnd (sanitizeList l))) := by
        rw [replaceBad_eq_self hgood]
    _ = lowerList (stripUnd (sanitizeList l)) := by rw [collapseUnd_eq_self hchain]
    _ = lowerList (sanitizeList l) := by rw [stripUnd_eq_self hhead hlast]
    _ = sanitizeList l := by
        rw [sanitizeList]
        exact lowerList_idem _

/-- C7: name sanitization is idempotent. -/
theorem sanitize_name_idem (s : String) : sanitize_name (sanitize_name s) = sanitize_name s := by
  by_cases h : (sanitizeList s.data).isEmpty
  · have h1 : sanitize_name s = "element" := by
      simp [sanitize_name, h]
    rw [h1]
    decide
  · have h1 : sanitize_name s = String.mk (sanitizeList s.data) := by
      simp [sanitize_name, h]
    have hdata : sanitizeList (String.mk (sanitizeList s.data)).data = sanitizeList s.data :=
      sanitizeList_idem s.data
    rw [h1]
    simp [sanitize_name, hdata, h]

theorem collapseSpec_head? (c : Char) (l : List Char) : (collapseSpec (c :: l)).head? = some c := by
  have h0 : collapseSpec (c :: l) =
      if c == '_' && (collapseSpec l).head? == some '_' then collapseSpec l
      else c :: collapseSpec l := rfl
  rw [h0]
  by_cases h : (c == '_' && (collapseSpec l).head? == some '_') = true
  · rw [if_pos h]
    simp only [Bool.and_eq_true, beq_iff_eq] at h
    rw [h.2, h.1]
  · rw [if_neg h]; rfl

theorem collapseUnd_eq_spec : ∀ l : List Char, collapseUnd l = collapseSpec l
  | [] => rfl
  | [c] => by
    rw [collapseUnd]
    have h0 : collapseSpec [c] =
        if c == '_' && (collapseSpec []).head? == some '_' then collapseSpec []
        else c :: collapseSpec [] := rfl
    rw [h0]
    rw [if_neg]
    · rfl
    · intro hc
      simp [collapseSpec] at hc
  | c :: d :: rest => by
    have h0 : collapseSpec (c :: d :: rest) =
        if c == '_' && (collapseSpec (d :: rest)).head? == some '_' then collapseSpec (d :: rest)
        else c :: collapseSpec (d :: rest) := rfl
    have hcond : (c == '_' && (collapseSpec (d :: rest)).head? == some '_') = (c == '_' && d == '_') := by
      rw [collapseSpec_head? d rest]
      by_cases hd : (d == '_') = true
      · rw [hd]
        simp only [Bool.and_true]
        rw [beq_iff_eq] at hd
        rw [hd]
        simp
      · simp only [Bool.not_eq_true] at hd
        rw [hd]
        simp only [Bool.and_false]
        rw [beq_eq_false_iff_ne] at hd
        have : (some d == some '_') = false := by
          rw [beq_eq_false_iff_ne]
          intro hcontra
          exact hd (Option.some.inj hcontra)
        rw [this]
        simp
    rw [collapseUnd, h0, hcond]
    by_cases h : (c == '_' && d == '_') = true
    · rw [if_pos h, if_pos h, collapseUnd_eq_spec (d :: rest)]
    · rw [if_neg h, if_neg h, collapseUnd_eq_spec (d :: rest)]

/-- C6: `sanitize_name` agrees with the spec's description of
sanitization (stated with an independent fold formulation of underscore
collapsing), and the two concrete examples. -/
theorem sanitize_matches_spec :
    (∀ s : String, sanitize_name s = sanitizeSpec s)
    ∧ sanitize_name "Hello World!" = "hello_world"
    ∧ sanitize_name "Заголовок!!" = "element" := by
  refine ⟨?_, by decide, by decide⟩
  intro s
  rw [sanitize_name, sanitizeSpec, sanitizeList, collapseUnd_eq_spec]

/-- C3: when the language-model call or the parsing of its reply fails,
every element of a non-empty list receives the deterministic fallback
description and logic, independent of any AI content. -/
theorem enhance_failure_all_fallback (elements : List UiElement) (frame_name : String)
    (h : elements ≠ []) :
    enhance_with_deepseek elements frame_name (.error ()) =
      elements.map (fun element =>
        { element with
          description := some ("Элемент " ++ element.type ++ ": " ++ element.raw_name),
          logic := some "Базовое взаимодействие с элементом" }) := by
  rw [enhance_with_deepseek, if_neg]
  simp [List.isEmpty_iff, h]

/-- Witness for C3 at a concrete two-element list. -/
theorem enhance_failure_all_fallback_witness :
    enhance_with_deepseek
        [{ id := 1, type := "text", name := "title", raw_name := "Title", figma_type := "TEXT" },
         { id := 2, type := "button", name := "btn", raw_name := "Btn", figma_type := "RECTANGLE" }]
        "Screen" (.error ()) =
      [{ id := 1, type := "text", name := "title", raw_name := "Title", figma_type := "TEXT",
         description := some "Элемент text: Title",
         logic := some "Базовое взаимодействие с элементом" },
       { id := 2, type := "button", name := "btn", raw_name := "Btn", figma_type := "RECTANGLE",
         description := some "Элемент button: Btn",
         logic := some "Базовое взаимодействие с элементом" }] := by
  rw [enhance_failure_all_fallback _ "Screen" (by decide)]
  decide

theorem generate_markdown_fold (elements : List UiElement) :
    ∀ init : String,
      elements.foldl (fun md element =>
        md ++ ("| " ++ toString element.id ++ " | " ++ element.type ++ " | " ++
                element.name ++ " | ")
           ++ ((element.description.getD "") ++ " | " ++ (element.logic.getD "") ++ " |\n"))
        init = init ++ markdownRows elements := by
  induction elements with
  | nil =>
    intro init
    rw [List.foldl_nil, markdownRows, List.foldr_nil]
    exact (String.append_empty init).symm
  | cons e rest ih =>
    intro init
    have hr : markdownRows (e :: rest) = markdownRow e ++ markdownRows rest := by
      rw [markdownRows, markdownRows, List.foldr_cons]
    rw [List.foldl_cons, ih, hr]
    simp [markdownRow, String.append_assoc]

/-- C8: the Markdown renderer is the pure function producing the level-1
heading with the frame name, the fixed 5-column table header, and one data
row per element in list order (absent description/logic as empty cells);
on an empty list it is just the heading and header. -/
theorem generate_markdown_spec :
    (∀ (elements : List UiElement) (frame_name : String),
      generate_markdown elements frame_name = markdownHeader frame_name ++ markdownRows elements)
    ∧ (∀ frame_name : String, generate_markdown [] frame_name = markdownHeader frame_name) := by
  constructor
  · intro elements frame_name
    rw [generate_markdown, generate_markdown_fold]
    simp [markdownHeader, String.append_assoc]
  · intro frame_name
    rw [generate_markdown, generate_markdown_fold]
    simp [markdownHeader, markdownRows, String.append_assoc, String.append_empty]

/-- C4 counterexample: a failure of the API call that is not an
`urllib.error.HTTPError` (a network `URLError`, a malformed response body,
...) escapes `fetch_figma_node` instead of returning the empty mapping:
the function does not catch every failure. -/
theorem fetch_other_failure_raises :
    fetch_figma_node "ABC" "1:2" "token" .otherFailure = .raised ∧
    fetch_figma_node "ABC" "1:2" "token" .otherFailure ≠ .returned none := by
  constructor
  · rfl
  · intro h
    exact FetchResult.noConfusion h

/-- C4 amended: the fetcher returns the `document` sub-object of the node
matching `node_id` (empty when the id is absent or has no document), and
returns the empty mapping on an `HTTPError` of any status; any other
failure propagates as an exception. -/
theorem fetch_figma_node_spec :
    (∀ (file_key node_id token : String) (nodes : List (String × Option DesignNode)),
      fetch_figma_node file_key node_id token (.ok nodes) =
        .returned (Option.join (dictGet nodes node_id)))
    ∧ (∀ file_key node_id token : String,
        fetch_figma_node file_key node_id token .httpError = .returned none)
    ∧ (∀ file_key node_id token : String,
        fetch_figma_node file_key node_id token .otherFailure = .raised) :=
  ⟨fun _ _ _ _ => rfl, fun _ _ _ => rfl, fun _ _ _ => rfl⟩

/-- C10: the node id is not percent-decoded — the `%` of `1%3A2` survives
into the parse result verbatim (the `[0-9%-]` class stops at the `A`, so
the match is `1%3`) — and a percent-containing id can never equal any
percent-free key of the API's `nodes` object, so the lookup misses. -/
theorem node_id_percent_verbatim :
    (parse_figma_url "https://figma.com/file/ABC/Test?node-id=1%3A2").2 = some "1%3"
    ∧ (∀ (file_key token nid : String) (nodes : List (String × Option DesignNode)),
        '%' ∈ nid.data → (∀ p ∈ nodes, '%' ∉ p.1.data) →
          fetch_figma_node file_key nid token (.ok nodes) = .returned none) := by
  constructor
  · decide
  · intro file_key token nid nodes hp hkeys
    rw [fetch_figma_node]
    have hnone : dictGet nodes nid = none := by
      rw [dictGet]
      have hfind : nodes.reverse.find? (fun p => p.1 == nid) = none := by
        rw [List.find?_eq_none]
        intro p hmem
        rw [List.mem_reverse] at hmem
        intro hbeq
        rw [beq_iff_eq] at hbeq
        exact hkeys p hmem (hbeq ▸ hp)
      rw [hfind]
      rfl
    rw [hnone]
    rfl

/-- Witness for C10 at a concrete lookup table. -/
theorem node_id_percent_verbatim_witness :
    fetch_figma_node "ABC" "1%3A2" "token"
        (.ok [("1:2", some (.mk (some "FRAME") (some "Screen") none []))]) =
      .returned none :=
  node_id_percent_verbatim.2 "ABC" "token" "1%3A2"
    [("1:2", some (.mk (some "FRAME") (some "Screen") none []))]
    (by decide) (by decide)

theorem isSubstr_nil_pat : ∀ l : List Char, isSubstr [] l = true
  | [] => rfl
  | _ :: _ => by rw [isSubstr]; simp [List.isPrefixOf]

theorem isSubstr_intro (pat : List Char) : ∀ (u v : List Char), isSubstr pat (u ++ pat ++ v) = true
  | [], v => by
    cases pat with
    | nil => exact isSubstr_nil_pat v
    | cons p pt =>
      show isSubstr (p :: pt) (p :: (pt ++ v)) = true
      rw [isSubstr, Bool.or_eq_true]
      left
      rw [List.isPrefixOf_iff_prefix]
      exact ⟨v, by rw [List.cons_append]⟩
  | c :: u', v => by
    show isSubstr pat (c :: (u' ++ pat ++ v)) = true
    rw [isSubstr, Bool.or_eq_true]
    right
    exact isSubstr_intro pat u' v

theorem isSubstr_elim : ∀ {l pat : List Char}, isSubstr pat l = true → ∃ u v, l = u ++ pat ++ v
  | [], pat, h => by
    rw [isSubstr, List.isEmpty_iff] at h
    exact ⟨[], [], by rw [h]; rfl⟩
  | c :: rest, pat, h => by
    rw [isSubstr, Bool.or_eq_true] at h
    rcases h with h | h
    · rw [List.isPrefixOf_iff_prefix] at h
      obtain ⟨v, hv⟩ := h
      exact ⟨[], v, by rw [← hv]; rfl⟩
    · obtain ⟨u, v, huv⟩ := isSubstr_elim h
      exact ⟨c :: u, v, by rw [huv]; rfl⟩

theorem searchCapture_some {lit : List Char} {cls : Char → Bool} :
    ∀ {l cap : List Char}, searchCapture lit cls l = some cap →
      ∃ u v, l = u ++ lit ++ cap ++ v ∧ cap ≠ [] ∧ ∀ c ∈ cap, cls c = true
  | [], cap, h => by rw [searchCapture] at h; exact absurd h (by simp)
  | c :: rest, cap, h => by
    rw [searchCapture] at h
    by_cases hc : (lit.isPrefixOf (c :: rest) &&
        !(((c :: rest).drop lit.length).takeWhile cls).isEmpty) = true
    · rw [if_pos hc] at h
      rw [Bool.and_eq_true] at hc
      obtain ⟨hpre, hne⟩ := hc
      have hcap : cap = ((c :: rest).drop lit.length).takeWhile cls := (Option.some.inj h).symm
      rw [List.isPrefixOf_iff_prefix, List.prefix_iff_eq_append] at hpre
      refine ⟨[], ((c :: rest).drop lit.length).dropWhile cls, ?_, ?_, ?_⟩
      · rw [List.nil_append, List.append_assoc, hcap, List.takeWhile_append_dropWhile, hpre]
      · rw [hcap]
        intro hnil
        rw [hnil] at hne
        simp at hne
      · intro x hx
        rw [hcap] at hx
        exact List.mem_takeWhile_imp hx
    · rw [if_neg hc] at h
      obtain ⟨u, v, h1, h2, h3⟩ := searchCapture_some h
      exact ⟨c :: u, v, by rw [h1]; rfl, h2, h3⟩

theorem searchFileKey_some :
    ∀ {l cap : List Char}, searchFileKey l = some cap →
      ∃ u v, (l = u ++ fileLit ++ cap ++ v ∨ l = u ++ designLit ++ cap ++ v) ∧
        cap ≠ [] ∧ ∀ c ∈ cap, alnumChar c = true
  | [], cap, h => by rw [searchFileKey] at h; exact absurd h (by simp)
  | c :: rest, cap, h => by
    rw [searchFileKey] at h
    by_cases hc1 : (fileLit.isPrefixOf (c :: rest) &&
        !(((c :: rest).drop fileLit.length).takeWhile alnumChar).isEmpty) = true
    · rw [if_pos hc1] at h
      rw [Bool.and_eq_true] at hc1
      obtain ⟨hpre, hne⟩ := hc1
      have hcap : cap = ((c :: rest).drop fileLit.length).takeWhile alnumChar :=
        (Option.some.inj h).symm
      rw [List.isPrefixOf_iff_prefix, List.prefix_iff_eq_append] at hpre
      refine ⟨[], ((c :: rest).drop fileLit.length).dropWhile alnumChar, ?_, ?_, ?_⟩
      · left
        rw [List.nil_append, List.append_assoc, hcap, List.takeWhile_append_dropWhile, hpre]
      · rw [hcap]
        intro hnil
        rw [hnil] at hne
        simp at hne
      · intro x hx
        rw [hcap] at hx
        exact List.mem_takeWhile_imp hx
    · rw [if_neg hc1] at h
      by_cases hc2 : (designLit.isPrefixOf (c :: rest) &&
          !(((c :: rest).drop designLit.length).takeWhile alnumChar).isEmpty) = true
      · rw [if_pos hc2] at h
        rw [Bool.and_eq_true] at hc2
        obtain ⟨hpre, hne⟩ := hc2
        have hcap : cap = ((c :: rest).drop designLit.length).takeWhile alnumChar :=
          (Option.some.inj h).symm
        rw [List.isPrefixOf_iff_prefix, List.prefix_iff_eq_append] at hpre
        refine ⟨[], ((c :: rest).drop designLit.length).dropWhile alnumChar, ?_, ?_, ?_⟩
        · right
          rw [List.nil_append, List.append_assoc, hcap, List.takeWhile_append_dropWhile, hpre]
        · rw [hcap]
          intro hnil
          rw [hnil] at hne
          simp at hne
        · intro x hx
          rw [hcap] at hx
          exact List.mem_takeWhile_imp hx
      · rw [if_neg hc2] at h
        obtain ⟨u, v, h1, h2, h3⟩ := searchFileKey_some h
        rcases h1 with h1 | h1
        · exact ⟨c :: u, v, Or.inl (by rw [h1]; rfl), h2, h3⟩
        · exact ⟨c :: u, v, Or.inr (by rw [h1]; rfl), h2, h3⟩

/-- C5: the URL parser is a total function; the node id component is a
`node-id=`-anchored nonempty run of `[0-9%-]` characters with every hyphen
rewritten to a colon, and is `none` whenever `node-id=` does not occur in
the URL; the file key is a nonempty alphanumeric run following
`figma.com/file/` or `figma.com/design/`, and is `none` when neither
literal occurs; plus the concrete example. -/
theorem parse_figma_url_spec :
    (∀ url : String, isSubstr nodeIdLit url.data = false → (parse_figma_url url).2 = none)
    ∧ (∀ url : String, isSubstr fileLit url.data = false →
        isSubstr designLit url.data = false → (parse_figma_url url).1 = none)
    ∧ (∀ (url : String) (s : String), (parse_figma_url url).2 = some s →
        ∃ raw, raw ≠ [] ∧ (∀ c ∈ raw, nodeIdChar c = true) ∧
          isSubstr (nodeIdLit ++ raw) url.data = true ∧
          s = String.mk (raw.map (fun c => if c == '-' then ':' else c)))
    ∧ (∀ (url : String) (k : String), (parse_figma_url url).1 = some k →
        k.data ≠ [] ∧ (∀ c ∈ k.data, alnumChar c = true) ∧
          (isSubstr (fileLit ++ k.data) url.data = true ∨
           isSubstr (designLit ++ k.data) url.data = true))
    ∧ parse_figma_url "https://figma.com/file/ABC123/Test?node-id=1-2" =
        (some "ABC123", some "1:2") := by
  refine ⟨?_, ?_, ?_, ?_, by decide⟩
  · intro url h
    show (searchCapture nodeIdLit nodeIdChar url.data).map _ = none
    cases hs : searchCapture nodeIdLit nodeIdChar url.data with
    | none => rfl
    | some cap =>
      obtain ⟨u, v, h1, _, _⟩ := searchCapture_some hs
      have h4 : url.data = u ++ nodeIdLit ++ (cap ++ v) := by
        rw [h1, List.append_assoc]
      have h5 := isSubstr_intro nodeIdLit u (cap ++ v)
      rw [← h4, h] at h5
      exact absurd h5 (by simp)
  · intro url h1 h2
    show (searchFileKey url.data).map _ = none
    cases hs : searchFileKey url.data with
    | none => rfl
    | some cap =>
      obtain ⟨u, v, hor, _, _⟩ := searchFileKey_some hs
      rcases hor with he | he
      · have h4 : url.data = u ++ fileLit ++ (cap ++ v) := by
          rw [he, List.append_assoc]
        have h5 := isSubstr_intro fileLit u (cap ++ v)
        rw [← h4, h1] at h5
        exact absurd h5 (by simp)
      · have h4 : url.data = u ++ designLit ++ (cap ++ v) := by
          rw [he, List.append_assoc]
        have h5 := isSubstr_intro designLit u (cap ++ v)
        rw [← h4, h2] at h5
        exact absurd h5 (by simp)
  · intro url s h
    have h0 : (parse_figma_url url).2 = (searchCapture nodeIdLit nodeIdChar url.data).map
        (fun l => String.mk (l.map (fun c => if c == '-' then ':' else c))) := rfl
    rw [h0] at h
    cases hs : searchCapture nodeIdLit nodeIdChar url.data with
    | none => rw [hs] at h; exact absurd h (by simp)
    | some cap =>
      rw [hs] at h
      simp only [Option.map_some', Option.some.injEq] at h
      obtain ⟨u, v, h1, h2, h3⟩ := searchCapture_some hs
      refine ⟨cap, h2, h3, ?_, h.symm⟩
      have h4 : url.data = u ++ (nodeIdLit ++ cap) ++ v := by
        rw [h1, List.append_assoc u nodeIdLit cap]
      rw [h4]
      exact isSubstr_intro (nodeIdLit ++ cap) u v
  · intro url k h
    have h0 : (parse_figma_url url).1 = (searchFileKey url.data).map String.mk := rfl
    rw [h0] at h
    cases hs : searchFileKey url.data with
    | none => rw [hs] at h; exact absurd h (by simp)
    | some cap =>
      rw [hs] at h
      simp only [Option.map_some', Option.some.injEq] at h
      obtain ⟨u, v, hor, h2, h3⟩ := searchFileKey_some hs
      have hk : k.data = cap := by rw [← h]
      refine ⟨by rw [hk]; exact h2, by rw [hk]; exact h3, ?_⟩
      rcases hor with he | he
      · left
        have h4 : url.data = u ++ (fileLit ++ k.data) ++ v := by
          rw [he, List.append_assoc u fileLit cap, hk]
        rw [h4]
        exact isSubstr_intro (fileLit ++ k.data) u v
      · right
        have h4 : url.data = u ++ (designLit ++ k.data) ++ v := by
          rw [he, List.append_assoc u designLit cap, hk]
        rw [h4]
        exact isSubstr_intro (designLit ++ k.data) u v

/-- Witness for C5: a URL containing neither pattern parses to two `none`s. -/
theorem parse_figma_url_spec_witness :
    (parse_figma_url "https://example.com/page").2 = none ∧
    (parse_figma_url "https://example.com/page").1 = none :=
  ⟨parse_figma_url_spec.1 _ (by decide),
   parse_figma_url_spec.2.1 _ (by decide) (by decide)⟩

/-- C9 counterexample: a malformed (non-JSON) request body — a client
input error in the spec's classification — is answered with the generic
500 internal error, not with a 400. -/
theorem handler_bad_body_counterexample :
    (handler "POST" .raisesOnLoad (some "token") (some "key") .httpError
      (.error ())).statusCode = 500 ∧
    (handler "POST" .raisesOnLoad (some "token") (some "key") .httpError
      (.error ())).statusCode ≠ 400 := by
  exact ⟨rfl, by decide⟩

/-- C9 amended: missing/blank `figmaUrl` and unparseable URLs yield 400
with the documented messages, but a request body that fails JSON parsing
(or is not an object, or carries a non-string figmaUrl) raises inside the
`try` and yields the generic 500 internal error, as does a design-API
failure other than `HTTPError`. -/
theorem handler_error_mapping :
    (∀ (tok key : Option String) (api : ApiOutcome) (ai : Except Unit (List AiItem)),
      handler "POST" .noFigmaUrl tok key api ai =
        ⟨400, corsJsonHeaders, .errorMsg "Figma URL is required"⟩)
    ∧ (∀ (s : String) (tok key : Option String) (api : ApiOutcome) (ai : Except Unit (List AiItem)),
        pyStrip s = "" → handler "POST" (.figmaUrl s) tok key api ai =
          ⟨400, corsJsonHeaders, .errorMsg "Figma URL is required"⟩)
    ∧ (∀ (s : String) (tok key : Option String) (api : ApiOutcome) (ai : Except Unit (List AiItem)),
        pyStrip s ≠ "" →
        (falsyStr (parse_figma_url (pyStrip s)).1 ||
          falsyStr (parse_figma_url (pyStrip s)).2) = true →
        handler "POST" (.figmaUrl s) tok key api ai =
          ⟨400, corsJsonHeaders,
           .errorMsg "Invalid Figma URL format. Expected: figma.com/file/FILE_KEY/...?node-id=NODE_ID"⟩)
    ∧ (∀ (tok key : Option String) (api : ApiOutcome) (ai : Except Unit (List AiItem)),
        handler "POST" .raisesOnLoad tok key api ai = ⟨500, corsJsonHeaders, .internalError⟩)
    ∧ (∀ (tok key : Option String) (api : ApiOutcome) (ai : Except Unit (List AiItem)),
        handler "POST" .loadedNonDict tok key api ai = ⟨500, corsJsonHeaders, .internalError⟩)
    ∧ (∀ (tok key : Option String) (api : ApiOutcome) (ai : Except Unit (List AiItem)),
        handler "POST" .figmaUrlNonString tok key api ai = ⟨500, corsJsonHeaders, .internalError⟩)
    ∧ (∀ (s : String) (tok key : Option String) (ai : Except Unit (List AiItem)),
        pyStrip s ≠ "" →
        (falsyStr (parse_figma_url (pyStrip s)).1 ||
          falsyStr (parse_figma_url (pyStrip s)).2) = false →
        falsyStr tok = false → falsyStr key = false →
        handler "POST" (.figmaUrl s) tok key .otherFailure ai =
          ⟨500, corsJsonHeaders, .internalError⟩) := by
  refine ⟨?_, ?_, ?_, ?_, ?_, ?_, ?_⟩
  · intro tok key api ai
    rfl
  · intro s tok key api ai h
    simp [handler, h]
  · intro s tok key api ai h1 h2
    simp [handler, h1, h2]
  · intro tok key api ai
    rfl
  · intro tok key api ai
    rfl
  · intro tok key api ai
    rfl
  · intro s tok key ai h1 h2 h3 h4
    simp [handler, h1, h2, h3, h4, fetch_figma_node]

/-- Witness for C9's amended statement: an unparseable URL is a 400. -/
theorem handler_error_mapping_witness :
    handler "POST" (.figmaUrl "https://example.com") (some "t") (some "k") .httpError
        (.error ()) =
      ⟨400, corsJsonHeaders,
       .errorMsg "Invalid Figma URL format. Expected: figma.com/file/FILE_KEY/...?node-id=NODE_ID"⟩ :=
  handler_error_mapping.2.2.1 "https://example.com" (some "t") (some "k") .httpError
    (.error ()) (by decide) (by decide)

end FigmaDocs
